import Mathlib

/-!
# Vector `powi` (`__sv_powi_x`, `pl/math/sv_powi.c`)

A shallow embedding of the SVE routine `__sv_powi_x` and a verification of its
contract.

* A vector register of `W` lanes is a `Mathlib.Vector _ W`; lane `i` of `v` is
  `v.get i`.
* Double-precision arithmetic is kept abstract: the routine only ever uses the
  constant `1.0`, multiplication and division, so it is embedded over an
  arbitrary carrier `α` with operations `F64Ops α`.  Instantiating `α` with a
  field gives the exact-arithmetic reading; leaving it arbitrary gives the
  uninterpreted reading.
* `int64_t` lanes are integers, `uint64_t` lanes are naturals; the only place
  where the width matters is the reinterpretation of `svabs` as unsigned, which
  reduces modulo `2 ^ 64`.
* The `_x` ("don't care") forms of the ACLE intrinsics leave inactive lanes
  unspecified.  Every such intrinsic takes an extra argument giving the value
  found in the inactive lanes; all results are proved for every choice of it.
-/

namespace SvPowi

/-! ## Data model -/

/-- The double-precision operations used by the routine, over a carrier `α`:
the constant `1.0`, multiplication and division. -/
structure F64Ops (α : Type) where
  /-- The constant `1.0`. -/
  one : α
  /-- Lane multiplication. -/
  mul : α → α → α
  /-- Lane division, `div x y` being `x / y`. -/
  div : α → α → α

/-- Governing predicate, `svbool_t` viewed at 64-bit granularity. -/
abbrev SvBool (W : Nat) := Mathlib.Vector Bool W

/-- Register of doubles, `svfloat64_t`. -/
abbrev SvFloat64 (α : Type) (W : Nat) := Mathlib.Vector α W

/-- Register of signed 64-bit integers, `svint64_t`. -/
abbrev SvInt64 (W : Nat) := Mathlib.Vector Int W

/-- Register of unsigned 64-bit integers, `svuint64_t`. -/
abbrev SvUint64 (W : Nat) := Mathlib.Vector Nat W

/-- An integer is representable as `int64_t`. -/
def IsInt64 (x : Int) : Prop := -(2 : Int) ^ 63 ≤ x ∧ x < (2 : Int) ^ 63

instance (x : Int) : Decidable (IsInt64 x) := by
  unfold IsInt64; exact inferInstance

/-- The constant `INT64_MIN`. -/
def INT64_MIN : Int := -(2 : Int) ^ 63

/-- The signed value of the low 64 bits of an integer. -/
def int64_wrap (x : Int) : Int := (x + (2 : Int) ^ 63) % (2 : Int) ^ 64 - (2 : Int) ^ 63

/-- The contents of the inactive lanes after each `_x` intrinsic of the routine.
The loop intrinsics are indexed by the iteration in which they are executed. -/
structure Unspecified (α : Type) (W : Nat) where
  /-- Inactive lanes of `svabs_s64_x (p, ns)`. -/
  abs_x : Fin W → Int
  /-- Inactive lanes of `svand_n_u64_x (p, ns_abs, 1)` in each iteration. -/
  and_x : Nat → Fin W → Nat
  /-- Inactive lanes of `svlsr_n_u64_x (p, ns_abs, 1)` in each iteration. -/
  lsr_x : Nat → Fin W → Nat
  /-- Inactive lanes of `svmul_f64_x (p, c, c)` in each iteration. -/
  mul_x : Nat → Fin W → α

/-! ## The ACLE intrinsics used by the routine

The intrinsics are provided by the compiler (`arm_sve.h`), not by this
repository; each is rendered lane by lane after its ACLE description. -/

/-- Intrinsic `svdup_n_f64 (x)`: broadcast a scalar to every lane. -/
def svdup_n_f64 {α : Type} {W : Nat} (x : α) : SvFloat64 α W := Mathlib.Vector.replicate W x

/-- Intrinsic `svcmplt_n_s64 (pg, op1, op2)`: active lanes with `op1 < op2`; inactive lanes
are false. -/
def svcmplt_n_s64 {W : Nat} (pg : SvBool W) (op1 : SvInt64 W) (op2 : Int) : SvBool W :=
  Mathlib.Vector.ofFn fun i => pg.get i && decide (op1.get i < op2)

/-- Intrinsic `svabs_s64_x (pg, op)`: two's-complement absolute value on active lanes (the
result is truncated to 64 bits, so `INT64_MIN` is left unchanged). -/
def svabs_s64_x {W : Nat} (inactive : Fin W → Int) (pg : SvBool W) (op : SvInt64 W) :
    SvInt64 W :=
  Mathlib.Vector.ofFn fun i => if pg.get i then int64_wrap |op.get i| else inactive i

/-- Intrinsic `svreinterpret_u64_s64 (op)`: the same 64 bits read as unsigned. -/
def svreinterpret_u64_s64 {W : Nat} (op : SvInt64 W) : SvUint64 W :=
  Mathlib.Vector.ofFn fun i => (op.get i % (2 : Int) ^ 64).toNat

/-- Intrinsic `svmaxv_u64 (pg, op)`: maximum over the active lanes, `0` when there are
none. -/
def svmaxv_u64 {W : Nat} (pg : SvBool W) (op : SvUint64 W) : Nat :=
  (List.finRange W).foldl (fun m i => if pg.get i then max m (op.get i) else m) 0

/-- Intrinsic `svand_n_u64_x (pg, op1, op2)`: bitwise and with a scalar on active lanes. -/
def svand_n_u64_x {W : Nat} (inactive : Fin W → Nat) (pg : SvBool W) (op1 : SvUint64 W)
    (op2 : Nat) : SvUint64 W :=
  Mathlib.Vector.ofFn fun i => if pg.get i then op1.get i &&& op2 else inactive i

/-- Intrinsic `svcmpeq_n_u64 (pg, op1, op2)`: active lanes with `op1 = op2`; inactive lanes
are false. -/
def svcmpeq_n_u64 {W : Nat} (pg : SvBool W) (op1 : SvUint64 W) (op2 : Nat) : SvBool W :=
  Mathlib.Vector.ofFn fun i => pg.get i && decide (op1.get i = op2)

/-- Intrinsic `svmul_f64_m (pg, op1, op2)`: product on active lanes, `op1` on inactive
lanes. -/
def svmul_f64_m {α : Type} {W : Nat} (ops : F64Ops α) (pg : SvBool W)
    (op1 op2 : SvFloat64 α W) : SvFloat64 α W :=
  Mathlib.Vector.ofFn fun i => if pg.get i then ops.mul (op1.get i) (op2.get i) else op1.get i

/-- Intrinsic `svmul_f64_x (pg, op1, op2)`: product on active lanes. -/
def svmul_f64_x {α : Type} {W : Nat} (ops : F64Ops α) (inactive : Fin W → α)
    (pg : SvBool W) (op1 op2 : SvFloat64 α W) : SvFloat64 α W :=
  Mathlib.Vector.ofFn fun i =>
    if pg.get i then ops.mul (op1.get i) (op2.get i) else inactive i

/-- Intrinsic `svlsr_n_u64_x (pg, op1, op2)`: logical shift right on active lanes. -/
def svlsr_n_u64_x {W : Nat} (inactive : Fin W → Nat) (pg : SvBool W) (op1 : SvUint64 W)
    (op2 : Nat) : SvUint64 W :=
  Mathlib.Vector.ofFn fun i => if pg.get i then op1.get i >>> op2 else inactive i

/-- Intrinsic `svptest_any (pg, op)`: some lane is set in both `pg` and `op`. -/
def svptest_any {W : Nat} (pg op : SvBool W) : Bool :=
  (List.finRange W).any (fun i => pg.get i && op.get i)

/-- Intrinsic `svdivr_n_f64_m (pg, op1, op2)`: reversed division `op2 / op1` on active
lanes, `op1` on inactive lanes. -/
def svdivr_n_f64_m {α : Type} {W : Nat} (ops : F64Ops α) (pg : SvBool W)
    (op1 : SvFloat64 α W) (op2 : α) : SvFloat64 α W :=
  Mathlib.Vector.ofFn fun i => if pg.get i then ops.div op2 (op1.get i) else op1.get i

/-! ## The routine -/

/-- The variables live across the `while (true)` loop.  `mul_rounds` is a ghost
variable: for every lane, the iterations (most recent first) in which
`svmul_f64_m` multiplied the lane's accumulator. -/
structure LoopState (α : Type) (W : Nat) where
  /-- The accumulator `acc`. -/
  acc : SvFloat64 α W
  /-- The remaining magnitude bits `ns_abs`. -/
  ns_abs : SvUint64 W
  /-- The current square `c`. -/
  c : SvFloat64 α W
  /-- The scalar `max_n`. -/
  max_n : Nat
  /-- Ghost: iterations in which the lane's accumulator was multiplied. -/
  mul_rounds : Mathlib.Vector (List Nat) W

/-- The `while (true)` loop of `__sv_powi_x`, entered for the `k`-th time (from
zero) in state `s`.  Returns the state at the `break` and the number of times
the body has been entered.  The recursion is on `max_n`, which the body halves
before each further iteration, so the loop is a total function. -/
def whileLoop {α : Type} {W : Nat} (ops : F64Ops α) (u : Unspecified α W) (p : SvBool W)
    (k : Nat) (s : LoopState α W) : LoopState α W × Nat :=
  let px := svcmpeq_n_u64 p (svand_n_u64_x (u.and_x k) p s.ns_abs 1) 1
  let acc := svmul_f64_m ops px s.acc s.c
  let rounds : Mathlib.Vector (List Nat) W := Mathlib.Vector.ofFn fun i =>
    if px.get i then k :: s.mul_rounds.get i else s.mul_rounds.get i
  let max_n := s.max_n >>> 1
  if max_n = 0 then
    ({ s with acc := acc, max_n := max_n, mul_rounds := rounds }, k + 1)
  else
    whileLoop ops u p (k + 1)
      { acc := acc
        ns_abs := svlsr_n_u64_x (u.lsr_x k) p s.ns_abs 1
        c := svmul_f64_x ops (u.mul_x k) p s.c s.c
        max_n := max_n
        mul_rounds := rounds }
termination_by s.max_n
decreasing_by
  simp only [Nat.shiftRight_one] at *
  omega

/-- Everything observable about one call of `__sv_powi_x`: the returned vector
and the ghost quantities of the loop. -/
structure Run (α : Type) (W : Nat) where
  /-- The returned vector. -/
  result : SvFloat64 α W
  /-- The accumulator at loop exit, before the reciprocal step. -/
  acc_loop : SvFloat64 α W
  /-- The predicate `want_recip`. -/
  want_recip : SvBool W
  /-- The number of times the loop body was entered. -/
  iterations : Nat
  /-- For every lane, the iterations in which its accumulator was multiplied
  (most recent first). -/
  mul_rounds : Mathlib.Vector (List Nat) W

/-- The body of `__sv_powi_x (as, ns, p)`, instrumented with ghost quantities. -/
def sv_powi_run {α : Type} {W : Nat} (ops : F64Ops α) (u : Unspecified α W)
    (as : SvFloat64 α W) (ns : SvInt64 W) (p : SvBool W) : Run α W :=
  let acc : SvFloat64 α W := svdup_n_f64 ops.one
  let want_recip := svcmplt_n_s64 p ns 0
  let ns_abs := svreinterpret_u64_s64 (svabs_s64_x u.abs_x p ns)
  let max_n := svmaxv_u64 p ns_abs
  let c := as
  let out := whileLoop ops u p 0
    { acc := acc, ns_abs := ns_abs, c := c, max_n := max_n
      mul_rounds := Mathlib.Vector.replicate W [] }
  let acc := out.1.acc
  let res := if svptest_any want_recip want_recip then svdivr_n_f64_m ops want_recip acc ops.one
    else acc
  { result := res, acc_loop := acc, want_recip := want_recip, iterations := out.2
    mul_rounds := out.1.mul_rounds }

/-- The routine `__sv_powi_x (as, ns, p)`. -/
def __sv_powi_x {α : Type} {W : Nat} (ops : F64Ops α) (u : Unspecified α W)
    (as : SvFloat64 α W) (ns : SvInt64 W) (p : SvBool W) : SvFloat64 α W :=
  (sv_powi_run ops u as ns p).result

/-! ## Views of the loop used in the proofs -/

/-- The state in which an iteration entered as the `k`-th in state `s` leaves
the loop (the `break`). -/
def bodyBreak {α : Type} {W : Nat} (ops : F64Ops α) (u : Unspecified α W) (p : SvBool W)
    (k : Nat) (s : LoopState α W) : LoopState α W :=
  { s with
    acc := svmul_f64_m ops (svcmpeq_n_u64 p (svand_n_u64_x (u.and_x k) p s.ns_abs 1) 1)
      s.acc s.c
    max_n := s.max_n >>> 1
    mul_rounds := Mathlib.Vector.ofFn fun i =>
      if (svcmpeq_n_u64 p (svand_n_u64_x (u.and_x k) p s.ns_abs 1) 1).get i then
        k :: s.mul_rounds.get i else s.mul_rounds.get i }

/-- The state in which an iteration entered as the `k`-th in state `s` starts
the next iteration. -/
def bodyNext {α : Type} {W : Nat} (ops : F64Ops α) (u : Unspecified α W) (p : SvBool W)
    (k : Nat) (s : LoopState α W) : LoopState α W :=
  { acc := svmul_f64_m ops (svcmpeq_n_u64 p (svand_n_u64_x (u.and_x k) p s.ns_abs 1) 1)
      s.acc s.c
    ns_abs := svlsr_n_u64_x (u.lsr_x k) p s.ns_abs 1
    c := svmul_f64_x ops (u.mul_x k) p s.c s.c
    max_n := s.max_n >>> 1
    mul_rounds := Mathlib.Vector.ofFn fun i =>
      if (svcmpeq_n_u64 p (svand_n_u64_x (u.and_x k) p s.ns_abs 1) 1).get i then
        k :: s.mul_rounds.get i else s.mul_rounds.get i }

/-- The unsigned magnitude computed on an active lane with exponent `e`. -/
def mag64 (e : Int) : Nat := (int64_wrap |e| % (2 : Int) ^ 64).toNat

/-- The effect of `r` loop rounds on one active lane: accumulator `acc`, current
square `c`, remaining magnitude `m`. -/
def laneRounds {α : Type} (ops : F64Ops α) : Nat → α → α → Nat → α
  | 0, acc, _, _ => acc
  | r + 1, acc, c, m =>
    laneRounds ops r (if m % 2 = 1 then ops.mul acc c else acc) (ops.mul c c) (m / 2)

/-- The rounds, starting with round `k`, in which `r` loop rounds multiply the
accumulator of an active lane with remaining magnitude `m` (most recent first). -/
def laneLog : Nat → Nat → List Nat → Nat → List Nat
  | 0, _, log, _ => log
  | r + 1, k, log, m => laneLog r (k + 1) (if m % 2 = 1 then k :: log else log) (m / 2)

/-- The value the routine computes on an active lane with base `b` and exponent
`e`, as a function of these two alone. -/
def lanePowi {α : Type} (ops : F64Ops α) (b : α) (e : Int) : α :=
  if e < 0 then ops.div ops.one (laneRounds ops 64 ops.one b (mag64 e))
  else laneRounds ops 64 ops.one b (mag64 e)

/-! ## Interpretations of the arithmetic -/

/-- The operations read exactly, in a field. -/
def exactOps (K : Type) [Field K] : F64Ops K where
  one := 1
  mul := fun x y => x * y
  div := fun x y => x / y

/-- A fragment of IEEE-754 double precision that is closed under multiplication
and division: `+0.0`, `1.0`, `+∞` and NaN. -/
inductive Ieee4 where
  | pzero
  | one
  | pinf
  | nan
  deriving DecidableEq

/-- IEEE-754 multiplication on the fragment. -/
def Ieee4.mul : Ieee4 → Ieee4 → Ieee4
  | .nan, _ => .nan
  | _, .nan => .nan
  | .pzero, .pinf => .nan
  | .pinf, .pzero => .nan
  | .pzero, _ => .pzero
  | _, .pzero => .pzero
  | .pinf, _ => .pinf
  | _, .pinf => .pinf
  | .one, .one => .one

/-- IEEE-754 division on the fragment, `Ieee4.div x y` being `x / y`. -/
def Ieee4.div : Ieee4 → Ieee4 → Ieee4
  | .nan, _ => .nan
  | _, .nan => .nan
  | .pzero, .pzero => .nan
  | .pinf, .pinf => .nan
  | .pzero, _ => .pzero
  | _, .pinf => .pzero
  | _, .pzero => .pinf
  | .pinf, .one => .pinf
  | .one, .one => .one

/-- The operations of the IEEE-754 fragment. -/
def ieee4Ops : F64Ops Ieee4 where
  one := .one
  mul := Ieee4.mul
  div := Ieee4.div

/-! ## Quantities named by the specification -/

/-- The largest magnitude `|exponent|` over the active lanes, `0` when no lane is
active. -/
def maxActiveMagnitude {W : Nat} (p : SvBool W) (ns : SvInt64 W) : Nat :=
  (Finset.univ.filter (fun i => p.get i = true)).sup (fun i => (ns.get i).natAbs)

/-- The number of binary digits of a natural number, `0` for `0`. -/
def bit_length (n : Nat) : Nat := Nat.size n

/-- The loop variables of the variant without `max_n`. -/
structure FullState (α : Type) (W : Nat) where
  /-- The accumulator. -/
  acc : SvFloat64 α W
  /-- The remaining magnitude bits. -/
  ns_abs : SvUint64 W
  /-- The current square. -/
  c : SvFloat64 α W

/-- Variant, after the design notes: `r` rounds, starting with round `k`, each of
which performs the bit test and the merging multiply, shifts `ns_abs` and
squares `c`, with no reference to `max_n`. -/
def fullRounds {α : Type} {W : Nat} (ops : F64Ops α) (u : Unspecified α W) (p : SvBool W) :
    Nat → Nat → FullState α W → FullState α W
  | 0, _, s => s
  | r + 1, k, s =>
    let px := svcmpeq_n_u64 p (svand_n_u64_x (u.and_x k) p s.ns_abs 1) 1
    fullRounds ops u p r (k + 1)
      { acc := svmul_f64_m ops px s.acc s.c
        ns_abs := svlsr_n_u64_x (u.lsr_x k) p s.ns_abs 1
        c := svmul_f64_x ops (u.mul_x k) p s.c s.c }

/-- Variant, after the design notes: always the full 64 rounds, and always the
predicated reciprocal merge, without the `svptest_any` check. -/
def sv_powi_full64 {α : Type} {W : Nat} (ops : F64Ops α) (u : Unspecified α W)
    (as : SvFloat64 α W) (ns : SvInt64 W) (p : SvBool W) : SvFloat64 α W :=
  let acc : SvFloat64 α W := svdup_n_f64 ops.one
  let want_recip := svcmplt_n_s64 p ns 0
  let ns_abs := svreinterpret_u64_s64 (svabs_s64_x u.abs_x p ns)
  let out := fullRounds ops u p 64 0 { acc := acc, ns_abs := ns_abs, c := as }
  svdivr_n_f64_m ops want_recip out.acc ops.one

/-! ## Concrete inputs -/

/-- Some contents for the inactive lanes of a four-lane run over the rationals. -/
def junkA : Unspecified ℚ 4 where
  abs_x := fun _ => 7
  and_x := fun _ _ => 1
  lsr_x := fun k _ => 5 + k
  mul_x := fun _ _ => 11

/-- Other contents for the inactive lanes of a four-lane run over the rationals. -/
def junkB : Unspecified ℚ 4 where
  abs_x := fun _ => -1
  and_x := fun k _ => k
  lsr_x := fun _ _ => 3
  mul_x := fun _ _ => 0

/-- Contents for the inactive lanes of a four-lane run over the IEEE-754
fragment. -/
def junkIeee : Unspecified Ieee4 4 where
  abs_x := fun _ => 9
  and_x := fun _ _ => 1
  lsr_x := fun _ _ => 2
  mul_x := fun _ _ => .nan

/-- The bases of the documented scenario. -/
def scenarioBases : SvFloat64 ℚ 4 := ⟨[2, 3, 5, 2], rfl⟩

/-- The exponents of the documented scenario. -/
def scenarioExponents : SvInt64 4 := ⟨[3, -2, 0, 62], rfl⟩

/-- The all-true predicate on four lanes. -/
def allActive4 : SvBool 4 := ⟨[true, true, true, true], rfl⟩

/-- The predicate `[true, true, false, true]`. -/
def maskTTFT : SvBool 4 := ⟨[true, true, false, true], rfl⟩

/-- Bases with lanes 0 and 1 equal. -/
def pairBases : SvFloat64 ℚ 4 := ⟨[3, 3, 5, 2], rfl⟩

/-- Exponents with lanes 0 and 1 opposite. -/
def pairExponents : SvInt64 4 := ⟨[-2, 2, 0, 62], rfl⟩

/-- Bases with a zero in lane 2. -/
def zeroBases : SvFloat64 ℚ 4 := ⟨[2, 3, 0, 2], rfl⟩

/-- Exponents with a lane of exponent 1 next to a lane of exponent `2 ^ 62`. -/
def dominatedExponents : SvInt64 4 := ⟨[1, 2 ^ 62, 0, -3], rfl⟩

/-- Exponents with `INT64_MIN` in lane 0. -/
def minExponents : SvInt64 4 := ⟨[INT64_MIN, 1, 0, -3], rfl⟩

/-- The all-zero exponent vector. -/
def zeroExponents : SvInt64 4 := ⟨[0, 0, 0, 0], rfl⟩

/-- Bases `[+0.0, 1.0, +0.0, 1.0]` in the IEEE-754 fragment. -/
def ieeeBases : SvFloat64 Ieee4 4 := ⟨[.pzero, .one, .pzero, .one], rfl⟩

/-- The all-false predicate on four lanes. -/
def noneActive4 : SvBool 4 := ⟨[false, false, false, false], rfl⟩

/-- The positions of the 1 bits of a `uint64_t` value, in increasing order. -/
def setBits (m : Nat) : List Nat := (List.range 64).filter (fun k => m.testBit k)

/-- The number of 1 bits of a `uint64_t` value. -/
def popcount (m : Nat) : Nat := (setBits m).length

/-- A value squared `k` times: `b`, `b * b`, `(b * b) * (b * b)`, ... -/
def squared {α : Type} (ops : F64Ops α) (k : Nat) (b : α) : α :=
  (fun x => ops.mul x x)^[k] b

/-- The state in which `__sv_powi_x (as, ns, p)` enters its loop. -/
def loopEntry {α : Type} {W : Nat} (ops : F64Ops α) (u : Unspecified α W)
    (as : SvFloat64 α W) (ns : SvInt64 W) (p : SvBool W) : LoopState α W :=
  { acc := svdup_n_f64 ops.one
    ns_abs := svreinterpret_u64_s64 (svabs_s64_x u.abs_x p ns)
    c := as
    max_n := svmaxv_u64 p (svreinterpret_u64_s64 (svabs_s64_x u.abs_x p ns))
    mul_rounds := Mathlib.Vector.replicate W [] }

/-- The state at the start of the `k`-th iteration (from zero) of the loop of
`__sv_powi_x (as, ns, p)`, for the iterations that take place: the entry state
followed by `k` passes through the whole body. -/
def iterationState {α : Type} {W : Nat} (ops : F64Ops α) (u : Unspecified α W)
    (as : SvFloat64 α W) (ns : SvInt64 W) (p : SvBool W) : Nat → LoopState α W
  | 0 => loopEntry ops u as ns p
  | k + 1 => bodyNext ops u p k (iterationState ops u as ns p k)

/-! ## Bit length -/

theorem size_half (n : Nat) (h : n / 2 ≠ 0) : Nat.size n = Nat.size (n / 2) + 1 := by
  apply le_antisymm
  · rw [Nat.size_le]
    have := Nat.lt_size_self (n / 2)
    rw [pow_succ]; omega
  · rw [Nat.succ_le_iff, Nat.lt_size]
    have h1 : 0 < Nat.size (n / 2) := Nat.size_pos.mpr (Nat.pos_of_ne_zero h)
    have h2 : 2 ^ (Nat.size (n / 2) - 1) ≤ n / 2 := by
      rw [← Nat.lt_size]; omega
    have h3 : 2 ^ Nat.size (n / 2) = 2 ^ (Nat.size (n / 2) - 1) * 2 := by
      rw [← pow_succ]; congr 1; omega
    omega

theorem size_le_one (n : Nat) (h : n / 2 = 0) : max 1 (Nat.size n) = 1 := by
  have : Nat.size n ≤ 1 := by rw [Nat.size_le]; omega
  omega

/-! ## The loop, one lane at a time -/

/-- One unfolding of the loop. -/
theorem whileLoop_eq {α : Type} {W : Nat} (ops : F64Ops α) (u : Unspecified α W) (p : SvBool W)
    (k : Nat) (s : LoopState α W) :
    whileLoop ops u p k s =
      if s.max_n >>> 1 = 0 then (bodyBreak ops u p k s, k + 1)
      else whileLoop ops u p (k + 1) (bodyNext ops u p k s) := by
  rw [whileLoop]
  rfl

/-- One pass over the loop body on an active lane: the bit test selects the lane
exactly when its remaining magnitude is odd. -/
theorem px_get {W : Nat} (inactive : Fin W → Nat) (p : SvBool W) (v : SvUint64 W) (i : Fin W) :
    (svcmpeq_n_u64 p (svand_n_u64_x inactive p v 1) 1).get i
      = (p.get i && decide (v.get i % 2 = 1)) := by
  simp only [svcmpeq_n_u64, svand_n_u64_x, Mathlib.Vector.get_ofFn]
  cases hp : p.get i <;> simp [Nat.and_one_is_mod]

/-- The number of times the loop body is entered. -/
theorem whileLoop_count {α : Type} {W : Nat} (ops : F64Ops α) (u : Unspecified α W)
    (p : SvBool W) :
    ∀ (n k : Nat) (s : LoopState α W), s.max_n = n →
      (whileLoop ops u p k s).2 = k + max 1 (Nat.size n) := by
  intro n
  induction n using Nat.strong_induction_on with
  | _ n ih =>
    intro k s hs
    rw [whileLoop_eq]
    by_cases h : s.max_n >>> 1 = 0
    · rw [if_pos h]
      have h2 : n / 2 = 0 := by rw [← hs, ← Nat.shiftRight_one]; exact h
      rw [size_le_one n h2]
    · rw [if_neg h]
      have h2 : n / 2 ≠ 0 := by rw [← hs, ← Nat.shiftRight_one]; exact h
      have hlt : n / 2 < n := by omega
      have hsz : max 1 (Nat.size n) = max 1 (Nat.size (n / 2)) + 1 := by
        have := size_half n h2
        have := Nat.size_pos.mpr (Nat.pos_of_ne_zero h2)
        omega
      rw [ih (n / 2) hlt (k + 1) (bodyNext ops u p k s) (by
        show s.max_n >>> 1 = n / 2
        rw [hs, Nat.shiftRight_one]), hsz]
      omega

/-- The loop seen from one active lane: the iteration count is the bit length of
`max_n` (at least one), and the lane undergoes that many scalar rounds. -/
theorem whileLoop_active {α : Type} {W : Nat} (ops : F64Ops α) (u : Unspecified α W)
    (p : SvBool W) (i : Fin W) (hp : p.get i = true) :
    ∀ (n k : Nat) (s : LoopState α W), s.max_n = n →
      (whileLoop ops u p k s).2 = k + max 1 (Nat.size n) ∧
      (whileLoop ops u p k s).1.acc.get i
        = laneRounds ops (max 1 (Nat.size n)) (s.acc.get i) (s.c.get i) (s.ns_abs.get i) ∧
      (whileLoop ops u p k s).1.mul_rounds.get i
        = laneLog (max 1 (Nat.size n)) k (s.mul_rounds.get i) (s.ns_abs.get i) := by
  intro n
  induction n using Nat.strong_induction_on with
  | _ n ih =>
    intro k s hs
    rw [whileLoop_eq]
    by_cases h : s.max_n >>> 1 = 0
    · rw [if_pos h]
      have h2 : n / 2 = 0 := by rw [← hs, ← Nat.shiftRight_one]; exact h
      rw [size_le_one n h2]
      simp [bodyBreak, laneRounds, laneLog, svmul_f64_m, px_get, hp]
    · rw [if_neg h]
      have h2 : n / 2 ≠ 0 := by rw [← hs, ← Nat.shiftRight_one]; exact h
      have hlt : n / 2 < n := by omega
      have hsz : max 1 (Nat.size n) = max 1 (Nat.size (n / 2)) + 1 := by
        have := size_half n h2
        have := Nat.size_pos.mpr (Nat.pos_of_ne_zero h2)
        omega
      obtain ⟨e1, e2, e3⟩ := ih (n / 2) hlt (k + 1) (bodyNext ops u p k s) (by
        show s.max_n >>> 1 = n / 2
        rw [hs, Nat.shiftRight_one])
      rw [e1, e2, e3, hsz]
      refine ⟨by omega, ?_, ?_⟩
      · simp [bodyNext, laneRounds, svmul_f64_m, svmul_f64_x, svlsr_n_u64_x, px_get, hp,
          Nat.shiftRight_one]
      · simp [bodyNext, laneLog, svlsr_n_u64_x, px_get, hp, Nat.shiftRight_one]

/-- The loop never writes the accumulator of an inactive lane. -/
theorem whileLoop_inactive {α : Type} {W : Nat} (ops : F64Ops α) (u : Unspecified α W)
    (p : SvBool W) (i : Fin W) (hp : p.get i = false) :
    ∀ (n k : Nat) (s : LoopState α W), s.max_n = n →
      (whileLoop ops u p k s).1.acc.get i = s.acc.get i ∧
      (whileLoop ops u p k s).1.mul_rounds.get i = s.mul_rounds.get i := by
  intro n
  induction n using Nat.strong_induction_on with
  | _ n ih =>
    intro k s hs
    rw [whileLoop_eq]
    by_cases h : s.max_n >>> 1 = 0
    · rw [if_pos h]
      simp [bodyBreak, svmul_f64_m, px_get, hp]
    · rw [if_neg h]
      have h2 : n / 2 ≠ 0 := by rw [← hs, ← Nat.shiftRight_one]; exact h
      have hlt : n / 2 < n := by omega
      obtain ⟨e1, e2⟩ := ih (n / 2) hlt (k + 1) (bodyNext ops u p k s) (by
        show s.max_n >>> 1 = n / 2
        rw [hs, Nat.shiftRight_one])
      rw [e1, e2]
      simp [bodyNext, svmul_f64_m, px_get, hp]

/-! ## Scalar rounds -/

theorem laneRounds_zero {α : Type} (ops : F64Ops α) (r : Nat) (acc c : α) :
    laneRounds ops r acc c 0 = acc := by
  induction r generalizing c with
  | zero => rfl
  | succ r ih => simp [laneRounds, ih]

/-- Rounds beyond the bit length of the magnitude leave the accumulator alone. -/
theorem laneRounds_stable {α : Type} (ops : F64Ops α) (r j : Nat) :
    ∀ (acc c : α) (m : Nat), m < 2 ^ r →
      laneRounds ops (r + j) acc c m = laneRounds ops r acc c m := by
  induction r with
  | zero =>
    intro acc c m hm
    have : m = 0 := by simpa using hm
    subst this
    simp [laneRounds_zero]
  | succ r ih =>
    intro acc c m hm
    have hm2 : m / 2 < 2 ^ r := by rw [pow_succ] at hm; omega
    rw [show r + 1 + j = (r + j) + 1 by omega]
    simp only [laneRounds]
    exact ih _ _ _ hm2

/-- Two round counts that both cover the magnitude give the same accumulator. -/
theorem laneRounds_congr {α : Type} (ops : F64Ops α) (r r2 : Nat) (acc c : α) (m : Nat)
    (h : m < 2 ^ r) (h2 : m < 2 ^ r2) :
    laneRounds ops r acc c m = laneRounds ops r2 acc c m := by
  rw [← laneRounds_stable ops r r2 acc c m h, ← laneRounds_stable ops r2 r acc c m h2,
    Nat.add_comm]

theorem laneLog_zero (r k : Nat) (log : List Nat) : laneLog r k log 0 = log := by
  induction r generalizing k with
  | zero => rfl
  | succ r ih => simp [laneLog, ih]

theorem laneLog_stable (r j : Nat) :
    ∀ (k : Nat) (log : List Nat) (m : Nat), m < 2 ^ r →
      laneLog (r + j) k log m = laneLog r k log m := by
  induction r with
  | zero =>
    intro k log m hm
    have : m = 0 := by simpa using hm
    subst this
    simp [laneLog_zero]
  | succ r ih =>
    intro k log m hm
    have hm2 : m / 2 < 2 ^ r := by rw [pow_succ] at hm; omega
    rw [show r + 1 + j = (r + j) + 1 by omega]
    simp only [laneLog]
    exact ih _ _ _ hm2

theorem laneLog_congr (r r2 k : Nat) (log : List Nat) (m : Nat)
    (h : m < 2 ^ r) (h2 : m < 2 ^ r2) : laneLog r k log m = laneLog r2 k log m := by
  rw [← laneLog_stable r r2 k log m h, ← laneLog_stable r2 r k log m h2, Nat.add_comm]

/-- In exact arithmetic, rounds covering the magnitude multiply the accumulator
by the `m`-th power of the current square. -/
theorem laneRounds_exact {K : Type} [Field K] (r : Nat) :
    ∀ (acc c : K) (m : Nat), m < 2 ^ r →
      laneRounds (exactOps K) r acc c m = acc * c ^ m := by
  induction r with
  | zero =>
    intro acc c m hm
    have : m = 0 := by simpa using hm
    subst this
    simp [laneRounds]
  | succ r ih =>
    intro acc c m hm
    have hm2 : m / 2 < 2 ^ r := by rw [pow_succ] at hm; omega
    simp only [laneRounds]
    rw [ih _ _ _ hm2]
    have hc : (exactOps K).mul c c = c ^ 2 := by simp [exactOps, pow_two]
    rw [hc, ← pow_mul]
    rcases Nat.mod_two_eq_zero_or_one m with h | h
    · have hm' : 2 * (m / 2) = m := by omega
      simp [h, hm']
    · have hm' : m = 2 * (m / 2) + 1 := by omega
      simp only [h, if_true, exactOps]
      conv_rhs => rw [hm', pow_succ]
      ring

/-- With a zero base, the accumulator is zero as soon as one bit of the
magnitude has been consumed. -/
theorem laneRounds_zero_base {α : Type} (ops : F64Ops α) (zero : α)
    (hmul1 : ops.mul ops.one zero = zero) (hmul0 : ops.mul zero zero = zero) (r : Nat) :
    ∀ (acc : α) (m : Nat), (acc = zero ∨ (acc = ops.one ∧ 0 < m)) → m < 2 ^ r →
      laneRounds ops r acc zero m = zero := by
  induction r with
  | zero =>
    intro acc m hacc hm
    have hm0 : m = 0 := by simpa using hm
    rcases hacc with h | ⟨_, h⟩
    · simpa [laneRounds] using h
    · omega
  | succ r ih =>
    intro acc m hacc hm
    have hm2 : m / 2 < 2 ^ r := by rw [pow_succ] at hm; omega
    simp only [laneRounds, hmul0]
    apply ih _ _ _ hm2
    rcases Nat.mod_two_eq_zero_or_one m with h | h
    · rw [if_neg (by omega)]
      rcases hacc with h' | ⟨h', hpos⟩
      · exact Or.inl h'
      · exact Or.inr ⟨h', by omega⟩
    · rw [if_pos h]
      rcases hacc with h' | ⟨h', _⟩
      · exact Or.inl (by rw [h', hmul0])
      · exact Or.inl (by rw [h', hmul1])

/-! ## The magnitude -/

theorem mag64_lt (e : Int) : mag64 e < 2 ^ 64 := by
  unfold mag64
  have h := Int.emod_lt_of_pos (int64_wrap |e|) (show (0 : Int) < 2 ^ 64 by norm_num)
  have h0 := Int.emod_nonneg (int64_wrap |e|) (show ((2 : Int) ^ 64) ≠ 0 by norm_num)
  omega

theorem mag64_neg (e : Int) : mag64 (-e) = mag64 e := by
  unfold mag64
  rw [abs_neg]

/-- On `int64_t` values, `INT64_MIN` included, the magnitude is the mathematical
absolute value. -/
theorem mag64_eq_natAbs (e : Int) (h : IsInt64 e) : mag64 e = e.natAbs := by
  unfold mag64 int64_wrap
  unfold IsInt64 at h
  have habs : |e| = (e.natAbs : Int) := Int.abs_eq_natAbs e
  rw [habs]
  omega

theorem mag64_zero : mag64 0 = 0 := by
  rw [mag64_eq_natAbs 0 (by unfold IsInt64; norm_num)]
  rfl

theorem mag64_one : mag64 1 = 1 := by
  rw [mag64_eq_natAbs 1 (by unfold IsInt64; norm_num)]
  rfl

/-- The lane function in exact arithmetic. -/
theorem lanePowi_exact {K : Type} [Field K] (b : K) (e : Int) (he : IsInt64 e) :
    lanePowi (exactOps K) b e = if 0 ≤ e then b ^ e.toNat else 1 / b ^ e.natAbs := by
  unfold lanePowi
  rw [laneRounds_exact 64 _ _ _ (mag64_lt e), mag64_eq_natAbs e he]
  by_cases h : e < 0
  · rw [if_pos h, if_neg (by omega)]
    simp [exactOps]
  · rw [if_neg h, if_pos (by omega)]
    have : e.natAbs = e.toNat := by omega
    simp [exactOps, this]

/-! ## The horizontal reductions -/

theorem svmaxv_foldl {W : Nat} (pg : SvBool W) (op : SvUint64 W) (l : List (Fin W)) :
    ∀ a : Nat, l.foldl (fun m i => if pg.get i then max m (op.get i) else m) a
      = max a ((l.toFinset.filter (fun i => pg.get i = true)).sup (fun i => op.get i)) := by
  induction l with
  | nil => intro a; simp
  | cons x l ih =>
    intro a
    rw [List.foldl_cons, ih, List.toFinset_cons, Finset.filter_insert]
    by_cases hx : pg.get x = true
    · simp only [hx, if_true, Finset.sup_insert]
      omega
    · simp [hx]

/-- The reduction `svmaxv_u64` is the maximum over the active lanes. -/
theorem svmaxv_eq_sup {W : Nat} (pg : SvBool W) (op : SvUint64 W) :
    svmaxv_u64 pg op
      = (Finset.univ.filter (fun i => pg.get i = true)).sup (fun i => op.get i) := by
  unfold svmaxv_u64
  rw [svmaxv_foldl, List.toFinset_finRange]
  simp

theorem le_svmaxv {W : Nat} (pg : SvBool W) (op : SvUint64 W) (i : Fin W)
    (h : pg.get i = true) : op.get i ≤ svmaxv_u64 pg op := by
  rw [svmaxv_eq_sup]
  exact Finset.le_sup (f := fun i => op.get i) (by simp [h])

theorem svreinterpret_lt {W : Nat} (v : SvInt64 W) (i : Fin W) :
    (svreinterpret_u64_s64 v).get i < 2 ^ 64 := by
  simp only [svreinterpret_u64_s64, Mathlib.Vector.get_ofFn]
  have h := Int.emod_lt_of_pos (v.get i) (show (0 : Int) < 2 ^ 64 by norm_num)
  have h0 := Int.emod_nonneg (v.get i) (show ((2 : Int) ^ 64) ≠ 0 by norm_num)
  omega

/-- The reduction of a `uint64_t` vector is a `uint64_t`. -/
theorem svmaxv_lt {W : Nat} (pg : SvBool W) (op : SvUint64 W) (h : ∀ i, op.get i < 2 ^ 64) :
    svmaxv_u64 pg op < 2 ^ 64 := by
  rw [svmaxv_eq_sup, Finset.sup_lt_iff (by norm_num)]
  intro i _
  exact h i

theorem svptest_any_self {W : Nat} (pg : SvBool W) :
    svptest_any pg pg = true ↔ ∃ i, pg.get i = true := by
  simp [svptest_any, List.any_eq_true]

/-! ## The routine, lane by lane -/

theorem ns_abs_active {W : Nat} (inactive : Fin W → Int) (p : SvBool W) (ns : SvInt64 W)
    (i : Fin W) (hp : p.get i = true) :
    (svreinterpret_u64_s64 (svabs_s64_x inactive p ns)).get i = mag64 (ns.get i) := by
  simp [svreinterpret_u64_s64, svabs_s64_x, hp, mag64]

/-- The iteration count covers every bit of every active magnitude. -/
theorem mag64_lt_rounds {W : Nat} (inactive : Fin W → Int) (p : SvBool W) (ns : SvInt64 W)
    (i : Fin W) (hp : p.get i = true) :
    mag64 (ns.get i)
      < 2 ^ max 1 (Nat.size (svmaxv_u64 p (svreinterpret_u64_s64 (svabs_s64_x inactive p ns)))) := by
  have h1 := le_svmaxv p (svreinterpret_u64_s64 (svabs_s64_x inactive p ns)) i hp
  rw [ns_abs_active inactive p ns i hp] at h1
  have h2 := Nat.lt_size_self (svmaxv_u64 p (svreinterpret_u64_s64 (svabs_s64_x inactive p ns)))
  have h3 : (2 : Nat) ^ Nat.size (svmaxv_u64 p (svreinterpret_u64_s64 (svabs_s64_x inactive p ns)))
      ≤ 2 ^ max 1 (Nat.size (svmaxv_u64 p (svreinterpret_u64_s64 (svabs_s64_x inactive p ns)))) :=
    Nat.pow_le_pow_right (by norm_num) (le_max_right _ _)
  omega

theorem run_iterations {α : Type} {W : Nat} (ops : F64Ops α) (u : Unspecified α W)
    (as : SvFloat64 α W) (ns : SvInt64 W) (p : SvBool W) :
    (sv_powi_run ops u as ns p).iterations
      = max 1 (Nat.size (svmaxv_u64 p (svreinterpret_u64_s64 (svabs_s64_x u.abs_x p ns)))) := by
  simp only [sv_powi_run]
  rw [whileLoop_count ops u p _ 0 _ rfl]
  simp

/-- The accumulator of an active lane at loop exit is the outcome of 64 scalar
rounds on the lane's own base and magnitude. -/
theorem run_acc_active {α : Type} {W : Nat} (ops : F64Ops α) (u : Unspecified α W)
    (as : SvFloat64 α W) (ns : SvInt64 W) (p : SvBool W) (i : Fin W) (hp : p.get i = true) :
    (sv_powi_run ops u as ns p).acc_loop.get i
      = laneRounds ops 64 ops.one (as.get i) (mag64 (ns.get i)) := by
  simp only [sv_powi_run]
  rw [(whileLoop_active ops u p i hp _ 0 _ rfl).2.1]
  simp only [svdup_n_f64, Mathlib.Vector.get_replicate, ns_abs_active u.abs_x p ns i hp]
  exact laneRounds_congr ops _ 64 _ _ _ (mag64_lt_rounds u.abs_x p ns i hp) (mag64_lt _)

theorem run_mul_rounds_active {α : Type} {W : Nat} (ops : F64Ops α) (u : Unspecified α W)
    (as : SvFloat64 α W) (ns : SvInt64 W) (p : SvBool W) (i : Fin W) (hp : p.get i = true) :
    (sv_powi_run ops u as ns p).mul_rounds.get i = laneLog 64 0 [] (mag64 (ns.get i)) := by
  simp only [sv_powi_run]
  rw [(whileLoop_active ops u p i hp _ 0 _ rfl).2.2]
  simp only [Mathlib.Vector.get_replicate, ns_abs_active u.abs_x p ns i hp]
  exact laneLog_congr _ 64 _ _ _ (mag64_lt_rounds u.abs_x p ns i hp) (mag64_lt _)

theorem run_acc_inactive {α : Type} {W : Nat} (ops : F64Ops α) (u : Unspecified α W)
    (as : SvFloat64 α W) (ns : SvInt64 W) (p : SvBool W) (i : Fin W) (hp : p.get i = false) :
    (sv_powi_run ops u as ns p).acc_loop.get i = ops.one := by
  simp only [sv_powi_run]
  rw [(whileLoop_inactive ops u p i hp _ 0 _ rfl).1]
  simp [svdup_n_f64]

theorem run_want_recip_get {α : Type} {W : Nat} (ops : F64Ops α) (u : Unspecified α W)
    (as : SvFloat64 α W) (ns : SvInt64 W) (p : SvBool W) (i : Fin W) :
    (sv_powi_run ops u as ns p).want_recip.get i = (p.get i && decide (ns.get i < 0)) := by
  simp [sv_powi_run, svcmplt_n_s64]

/-- The reciprocal step, lane by lane: the `svptest_any` shortcut is not
observable. -/
theorem run_result_get {α : Type} {W : Nat} (ops : F64Ops α) (u : Unspecified α W)
    (as : SvFloat64 α W) (ns : SvInt64 W) (p : SvBool W) (i : Fin W) :
    (sv_powi_run ops u as ns p).result.get i
      = if (sv_powi_run ops u as ns p).want_recip.get i
        then ops.div ops.one ((sv_powi_run ops u as ns p).acc_loop.get i)
        else (sv_powi_run ops u as ns p).acc_loop.get i := by
  simp only [sv_powi_run]
  by_cases h : svptest_any (svcmplt_n_s64 p ns 0) (svcmplt_n_s64 p ns 0) = true
  · rw [if_pos h]
    simp [svdivr_n_f64_m]
  · rw [if_neg h]
    rw [svptest_any_self] at h
    have : (svcmplt_n_s64 p ns 0).get i = false := by
      cases hh : (svcmplt_n_s64 p ns 0).get i
      · rfl
      · exact absurd ⟨i, hh⟩ h
    simp [this]

/-- An active lane of the result depends on the lane's base and exponent only. -/
theorem powi_active {α : Type} {W : Nat} (ops : F64Ops α) (u : Unspecified α W)
    (as : SvFloat64 α W) (ns : SvInt64 W) (p : SvBool W) (i : Fin W) (hp : p.get i = true) :
    (__sv_powi_x ops u as ns p).get i = lanePowi ops (as.get i) (ns.get i) := by
  unfold __sv_powi_x
  rw [run_result_get, run_want_recip_get, run_acc_active ops u as ns p i hp, hp]
  simp [lanePowi]

/-- An active lane of the variant's loop undergoes `r` scalar rounds. -/
theorem fullRounds_active {α : Type} {W : Nat} (ops : F64Ops α) (u : Unspecified α W)
    (p : SvBool W) (i : Fin W) (hp : p.get i = true) (r : Nat) :
    ∀ (k : Nat) (s : FullState α W),
      (fullRounds ops u p r k s).acc.get i
        = laneRounds ops r (s.acc.get i) (s.c.get i) (s.ns_abs.get i) := by
  induction r with
  | zero => intro k s; rfl
  | succ r ih =>
    intro k s
    simp only [fullRounds, laneRounds]
    rw [ih]
    simp [svmul_f64_m, svmul_f64_x, svlsr_n_u64_x, px_get, hp, Nat.shiftRight_one]

/-- An active lane of the variant is the lane function of its base and
exponent. -/
theorem full64_active {α : Type} {W : Nat} (ops : F64Ops α) (u : Unspecified α W)
    (as : SvFloat64 α W) (ns : SvInt64 W) (p : SvBool W) (i : Fin W) (hp : p.get i = true) :
    (sv_powi_full64 ops u as ns p).get i = lanePowi ops (as.get i) (ns.get i) := by
  simp only [sv_powi_full64, svdivr_n_f64_m, Mathlib.Vector.get_ofFn]
  rw [fullRounds_active ops u p i hp]
  simp [svcmplt_n_s64, svdup_n_f64, hp, ns_abs_active u.abs_x p ns i hp, lanePowi]

/-! ## The multiplies of one lane -/

theorem filter_testBit_succ (r m : Nat) :
    (List.range (r + 1)).filter (fun j => m.testBit j)
      = (if m % 2 = 1 then [0] else [])
        ++ ((List.range r).filter (fun j => (m / 2).testBit j)).map Nat.succ := by
  rw [List.range_succ_eq_map, List.filter_cons, List.filter_map]
  have h0 : m.testBit 0 = decide (m % 2 = 1) := Nat.testBit_zero m
  have hs : ((fun j => m.testBit j) ∘ Nat.succ) = fun j => (m / 2).testBit j := by
    funext j
    simp [Nat.testBit_succ]
  rw [hs, h0]
  by_cases h : m % 2 = 1 <;> simp [h]

/-- The log of `r` rounds lists the set bits below `r`, shifted by the first
round's number, most recent first. -/
theorem laneLog_eq (r : Nat) :
    ∀ (k : Nat) (log : List Nat) (m : Nat),
      laneLog r k log m
        = (((List.range r).filter (fun j => m.testBit j)).map (fun j => j + k)).reverse
          ++ log := by
  induction r with
  | zero => intro k log m; simp [laneLog]
  | succ r ih =>
    intro k log m
    simp only [laneLog]
    rw [ih, filter_testBit_succ]
    by_cases h : m % 2 = 1
    · simp [h, List.map_map, Function.comp_def, Nat.succ_eq_add_one, Nat.add_assoc,
        Nat.add_comm 1 k]
    · simp [h, List.map_map, Function.comp_def, Nat.succ_eq_add_one, Nat.add_assoc,
        Nat.add_comm 1 k]

/-- The accumulator after `r` rounds: one multiply per set bit below `r`, in
increasing bit order, the bit at position `j` multiplying by the current square
squared `j` more times. -/
theorem laneRounds_eq_foldl {α : Type} (ops : F64Ops α) (r : Nat) :
    ∀ (acc c : α) (m : Nat),
      laneRounds ops r acc c m
        = ((List.range r).filter (fun j => m.testBit j)).foldl
            (fun a j => ops.mul a (squared ops j c)) acc := by
  induction r with
  | zero => intro acc c m; simp [laneRounds]
  | succ r ih =>
    intro acc c m
    simp only [laneRounds]
    rw [ih, filter_testBit_succ, List.foldl_append, List.foldl_map]
    have hsq : ∀ j, squared ops (Nat.succ j) c = squared ops j (ops.mul c c) := by
      intro j
      simp [squared, Function.iterate_succ_apply]
    simp only [hsq]
    by_cases h : m % 2 = 1
    · simp [h, squared]
    · simp [h]

theorem setBits_pairwise (m : Nat) : (setBits m).Pairwise (fun a b => a < b) :=
  List.Pairwise.sublist (List.filter_sublist _) (List.pairwise_lt_range 64)

/-! ## The state at the start of each iteration -/

/-- The routine runs the loop from `loopEntry`. -/
theorem run_eq_whileLoop {α : Type} {W : Nat} (ops : F64Ops α) (u : Unspecified α W)
    (as : SvFloat64 α W) (ns : SvInt64 W) (p : SvBool W) :
    (sv_powi_run ops u as ns p).acc_loop = (whileLoop ops u p 0 (loopEntry ops u as ns p)).1.acc ∧
    (sv_powi_run ops u as ns p).iterations = (whileLoop ops u p 0 (loopEntry ops u as ns p)).2 :=
  ⟨rfl, rfl⟩

/-- One pass through the whole body, seen from an active lane. -/
theorem bodyNext_active {α : Type} {W : Nat} (ops : F64Ops α) (u : Unspecified α W)
    (p : SvBool W) (i : Fin W) (hp : p.get i = true) (k : Nat) (s : LoopState α W) :
    (bodyNext ops u p k s).acc.get i
      = (if s.ns_abs.get i % 2 = 1 then ops.mul (s.acc.get i) (s.c.get i) else s.acc.get i) ∧
    (bodyNext ops u p k s).c.get i = ops.mul (s.c.get i) (s.c.get i) ∧
    (bodyNext ops u p k s).ns_abs.get i = s.ns_abs.get i / 2 := by
  simp [bodyNext, svmul_f64_m, svmul_f64_x, svlsr_n_u64_x, px_get, hp, Nat.shiftRight_one]

theorem iterationState_max_n {α : Type} {W : Nat} (ops : F64Ops α) (u : Unspecified α W)
    (as : SvFloat64 α W) (ns : SvInt64 W) (p : SvBool W) (k : Nat) :
    (iterationState ops u as ns p k).max_n
      = svmaxv_u64 p (svreinterpret_u64_s64 (svabs_s64_x u.abs_x p ns)) >>> k := by
  induction k with
  | zero => rfl
  | succ k ih =>
    show (iterationState ops u as ns p k).max_n >>> 1 = _
    rw [Nat.shiftRight_one, ih, Nat.shiftRight_succ]

theorem iterationState_ns_abs {α : Type} {W : Nat} (ops : F64Ops α) (u : Unspecified α W)
    (as : SvFloat64 α W) (ns : SvInt64 W) (p : SvBool W) (i : Fin W) (hp : p.get i = true)
    (k : Nat) :
    (iterationState ops u as ns p k).ns_abs.get i = mag64 (ns.get i) >>> k := by
  induction k with
  | zero => exact ns_abs_active u.abs_x p ns i hp
  | succ k ih =>
    show (bodyNext ops u p k (iterationState ops u as ns p k)).ns_abs.get i = _
    rw [(bodyNext_active ops u p i hp k _).2.2, ih, Nat.shiftRight_succ]

/-- The loop does not break before its last iteration. -/
theorem iterationState_continues {α : Type} {W : Nat} (ops : F64Ops α) (u : Unspecified α W)
    (as : SvFloat64 α W) (ns : SvInt64 W) (p : SvBool W) (j : Nat)
    (hj : j + 1 < max 1 (Nat.size
      (svmaxv_u64 p (svreinterpret_u64_s64 (svabs_s64_x u.abs_x p ns))))) :
    (iterationState ops u as ns p j).max_n >>> 1 ≠ 0 := by
  rw [iterationState_max_n, Nat.shiftRight_one, ← Nat.shiftRight_succ,
    Nat.shiftRight_eq_div_pow]
  have h1 : j + 1 < Nat.size
      (svmaxv_u64 p (svreinterpret_u64_s64 (svabs_s64_x u.abs_x p ns))) := by omega
  rw [Nat.lt_size] at h1
  have := Nat.div_pos h1 (Nat.pos_pow_of_pos (j + 1) (by norm_num))
  omega

/-- Every iteration that takes place is entered in its `iterationState`. -/
theorem whileLoop_iterationState {α : Type} {W : Nat} (ops : F64Ops α) (u : Unspecified α W)
    (as : SvFloat64 α W) (ns : SvInt64 W) (p : SvBool W) (k : Nat)
    (hk : k < max 1 (Nat.size
      (svmaxv_u64 p (svreinterpret_u64_s64 (svabs_s64_x u.abs_x p ns))))) :
    whileLoop ops u p 0 (loopEntry ops u as ns p)
      = whileLoop ops u p k (iterationState ops u as ns p k) := by
  induction k with
  | zero => rfl
  | succ k ih =>
    rw [ih (by omega), whileLoop_eq, if_neg (iterationState_continues ops u as ns p k hk)]
    rfl

/-- The last iteration takes the `break`. -/
theorem whileLoop_exit {α : Type} {W : Nat} (ops : F64Ops α) (u : Unspecified α W)
    (as : SvFloat64 α W) (ns : SvInt64 W) (p : SvBool W) (n : Nat)
    (hn : n + 1 = max 1 (Nat.size
      (svmaxv_u64 p (svreinterpret_u64_s64 (svabs_s64_x u.abs_x p ns))))) :
    whileLoop ops u p 0 (loopEntry ops u as ns p)
      = (bodyBreak ops u p n (iterationState ops u as ns p n), n + 1) := by
  rw [whileLoop_iterationState ops u as ns p n (by omega), whileLoop_eq, if_pos]
  rw [iterationState_max_n, Nat.shiftRight_one, ← Nat.shiftRight_succ,
    Nat.shiftRight_eq_div_pow]
  apply Nat.div_eq_of_lt
  have h1 : Nat.size (svmaxv_u64 p (svreinterpret_u64_s64 (svabs_s64_x u.abs_x p ns)))
      ≤ n + 1 := by omega
  exact Nat.size_le.mp h1

theorem iterationState_c_exact {K : Type} [Field K] {W : Nat} (u : Unspecified K W)
    (as : SvFloat64 K W) (ns : SvInt64 W) (p : SvBool W) (i : Fin W) (hp : p.get i = true)
    (k : Nat) :
    (iterationState (exactOps K) u as ns p k).c.get i = as.get i ^ 2 ^ k := by
  induction k with
  | zero => simp [iterationState, loopEntry]
  | succ k ih =>
    show (bodyNext (exactOps K) u p k (iterationState (exactOps K) u as ns p k)).c.get i = _
    rw [(bodyNext_active (exactOps K) u p i hp k _).2.1, ih]
    show as.get i ^ 2 ^ k * as.get i ^ 2 ^ k = _
    rw [← pow_add, pow_succ, mul_two]

/-- The invariant of binary exponentiation, in exact arithmetic. -/
theorem iterationState_invariant {K : Type} [Field K] {W : Nat} (u : Unspecified K W)
    (as : SvFloat64 K W) (ns : SvInt64 W) (p : SvBool W) (i : Fin W) (hp : p.get i = true)
    (k : Nat) :
    (iterationState (exactOps K) u as ns p k).acc.get i
        * (iterationState (exactOps K) u as ns p k).c.get i
          ^ (iterationState (exactOps K) u as ns p k).ns_abs.get i
      = as.get i ^ mag64 (ns.get i) := by
  induction k with
  | zero =>
    simp [iterationState, loopEntry, svdup_n_f64, ns_abs_active u.abs_x p ns i hp, exactOps]
  | succ k ih =>
    rw [← ih]
    show (bodyNext (exactOps K) u p k (iterationState (exactOps K) u as ns p k)).acc.get i
        * (bodyNext (exactOps K) u p k (iterationState (exactOps K) u as ns p k)).c.get i
          ^ (bodyNext (exactOps K) u p k (iterationState (exactOps K) u as ns p k)).ns_abs.get i
      = _
    obtain ⟨e1, e2, e3⟩ := bodyNext_active (exactOps K) u p i hp k
      (iterationState (exactOps K) u as ns p k)
    rw [e1, e2, e3]
    generalize (iterationState (exactOps K) u as ns p k).acc.get i = a
    generalize (iterationState (exactOps K) u as ns p k).c.get i = c
    generalize (iterationState (exactOps K) u as ns p k).ns_abs.get i = m
    have hmul : ∀ x y : K, (exactOps K).mul x y = x * y := fun _ _ => rfl
    rw [hmul, hmul, ← pow_two, ← pow_mul]
    rcases Nat.mod_two_eq_zero_or_one m with h | h
    · have hm : 2 * (m / 2) = m := by omega
      rw [if_neg (by omega), hm]
    · have hm : m = 2 * (m / 2) + 1 := by omega
      rw [if_pos h]
      conv_rhs => rw [hm, pow_succ]
      ring

/-- On `int64_t` exponents the scalar `max_n` starts as the largest active
magnitude. -/
theorem svmaxv_eq_maxActiveMagnitude {W : Nat} (inactive : Fin W → Int) (p : SvBool W)
    (ns : SvInt64 W) (hns : ∀ j, p.get j = true → IsInt64 (ns.get j)) :
    svmaxv_u64 p (svreinterpret_u64_s64 (svabs_s64_x inactive p ns))
      = maxActiveMagnitude p ns := by
  rw [svmaxv_eq_sup]
  unfold maxActiveMagnitude
  apply Finset.sup_congr rfl
  intro j hj
  have hp : p.get j = true := by simpa using hj
  rw [ns_abs_active inactive p ns j hp, mag64_eq_natAbs _ (hns j hp)]

/-- At the `break` an active lane has at most its top bit left in `ns_abs`. -/
theorem exit_ns_abs_le_one {α : Type} {W : Nat} (ops : F64Ops α) (u : Unspecified α W)
    (as : SvFloat64 α W) (ns : SvInt64 W) (p : SvBool W) (i : Fin W) (hp : p.get i = true) :
    (whileLoop ops u p 0 (loopEntry ops u as ns p)).1.ns_abs.get i ≤ 1 := by
  obtain ⟨n, hn⟩ : ∃ n, n + 1 = max 1 (Nat.size
      (svmaxv_u64 p (svreinterpret_u64_s64 (svabs_s64_x u.abs_x p ns)))) :=
    ⟨max 1 (Nat.size
      (svmaxv_u64 p (svreinterpret_u64_s64 (svabs_s64_x u.abs_x p ns)))) - 1, by omega⟩
  rw [whileLoop_exit ops u as ns p n hn]
  show (iterationState ops u as ns p n).ns_abs.get i ≤ 1
  rw [iterationState_ns_abs ops u as ns p i hp, Nat.shiftRight_eq_div_pow]
  have hlt := mag64_lt_rounds u.abs_x p ns i hp
  rw [← hn, pow_succ] at hlt
  have h2 : mag64 (ns.get i) / 2 ^ n < 2 := by
    rw [Nat.div_lt_iff_lt_mul (Nat.pos_pow_of_pos n (by norm_num))]
    omega
  omega

/-! ## The contract -/

/-- C1: in exact arithmetic (any field), every active lane whose exponent is an
`int64_t` value returns `base ^ e` when `e ≥ 0` and `1 / base ^ |e|` when
`e < 0`, for every width, mask and content of the other lanes (the quotient
being the field's own, also for a zero base). -/
theorem C1_powi_exact {K : Type} [Field K] {W : Nat} (u : Unspecified K W)
    (as : SvFloat64 K W) (ns : SvInt64 W) (p : SvBool W) (i : Fin W)
    (hp : p.get i = true) (hi : IsInt64 (ns.get i)) :
    (__sv_powi_x (exactOps K) u as ns p).get i
      = if 0 ≤ ns.get i then as.get i ^ (ns.get i).toNat
        else 1 / as.get i ^ (ns.get i).natAbs := by
  rw [powi_active (exactOps K) u as ns p i hp]
  exact lanePowi_exact _ _ hi

/-- C1, documented scenario: bases `[2, 3, 5, 2]`, exponents `[3, -2, 0, 62]`, all
lanes active, give `[8, 1/9, 1, 2 ^ 62]`. -/
theorem C1_powi_exact_witness :
    (__sv_powi_x (exactOps ℚ) junkA scenarioBases scenarioExponents allActive4).get 0 = 8 ∧
    (__sv_powi_x (exactOps ℚ) junkA scenarioBases scenarioExponents allActive4).get 1 = 1 / 9 ∧
    (__sv_powi_x (exactOps ℚ) junkA scenarioBases scenarioExponents allActive4).get 2 = 1 ∧
    (__sv_powi_x (exactOps ℚ) junkA scenarioBases scenarioExponents allActive4).get 3
      = 2 ^ 62 := by
  refine ⟨?_, ?_, ?_, ?_⟩
  · rw [C1_powi_exact junkA scenarioBases scenarioExponents allActive4 0 rfl (by decide)]
    have h : scenarioExponents.get 0 = 3 := rfl
    have hb : scenarioBases.get 0 = 2 := rfl
    rw [h, hb, show Int.toNat 3 = 3 from rfl]; norm_num
  · rw [C1_powi_exact junkA scenarioBases scenarioExponents allActive4 1 rfl (by decide)]
    have h : scenarioExponents.get 1 = -2 := rfl
    have hb : scenarioBases.get 1 = 3 := rfl
    rw [h, hb]; norm_num
  · rw [C1_powi_exact junkA scenarioBases scenarioExponents allActive4 2 rfl (by decide)]
    have h : scenarioExponents.get 2 = 0 := rfl
    have hb : scenarioBases.get 2 = 5 := rfl
    rw [h, hb]; norm_num
  · rw [C1_powi_exact junkA scenarioBases scenarioExponents allActive4 3 rfl (by decide)]
    have h : scenarioExponents.get 3 = 62 := rfl
    have hb : scenarioBases.get 3 = 2 := rfl
    rw [h, hb, show Int.toNat 62 = 62 from rfl]; norm_num

/-- C2: lane independence.  For any two calls, of any widths, masks, inactive-lane
contents and other-lane inputs, two active lanes carrying the same base and the
same exponent return the same value, multiplication and division being
arbitrary operations. -/
theorem C2_lane_independence {α : Type} (ops : F64Ops α) {W W2 : Nat}
    (u : Unspecified α W) (as : SvFloat64 α W) (ns : SvInt64 W) (p : SvBool W)
    (u2 : Unspecified α W2) (as2 : SvFloat64 α W2) (ns2 : SvInt64 W2) (p2 : SvBool W2)
    (i : Fin W) (j : Fin W2) (hp : p.get i = true) (hp2 : p2.get j = true)
    (hb : as.get i = as2.get j) (he : ns.get i = ns2.get j) :
    (__sv_powi_x ops u as ns p).get i = (__sv_powi_x ops u2 as2 ns2 p2).get j := by
  rw [powi_active ops u as ns p i hp, powi_active ops u2 as2 ns2 p2 j hp2, hb, he]

/-- C2, documented scenario: under the mask `[true, true, false, true]` lanes 0, 1
and 3 equal the fully-active result, whatever the inactive lanes hold. -/
theorem C2_lane_independence_witness :
    (__sv_powi_x (exactOps ℚ) junkA scenarioBases scenarioExponents maskTTFT).get 0
      = (__sv_powi_x (exactOps ℚ) junkB scenarioBases scenarioExponents allActive4).get 0 ∧
    (__sv_powi_x (exactOps ℚ) junkA scenarioBases scenarioExponents maskTTFT).get 1
      = (__sv_powi_x (exactOps ℚ) junkB scenarioBases scenarioExponents allActive4).get 1 ∧
    (__sv_powi_x (exactOps ℚ) junkA scenarioBases scenarioExponents maskTTFT).get 3
      = (__sv_powi_x (exactOps ℚ) junkB scenarioBases scenarioExponents allActive4).get 3 :=
  ⟨C2_lane_independence (exactOps ℚ) junkA scenarioBases scenarioExponents maskTTFT
      junkB scenarioBases scenarioExponents allActive4 0 0 rfl rfl rfl rfl,
    C2_lane_independence (exactOps ℚ) junkA scenarioBases scenarioExponents maskTTFT
      junkB scenarioBases scenarioExponents allActive4 1 1 rfl rfl rfl rfl,
    C2_lane_independence (exactOps ℚ) junkA scenarioBases scenarioExponents maskTTFT
      junkB scenarioBases scenarioExponents allActive4 3 3 rfl rfl rfl rfl⟩

/-- C3: for `n > 0`, an active lane with exponent `-n` returns `1.0` divided by
what an active lane with the same base and exponent `n` returns (in the same or
in any other call), as an equation over arbitrary multiply and divide. -/
theorem C3_negative_exponent_reciprocal {α : Type} (ops : F64Ops α) {W W2 : Nat}
    (u : Unspecified α W) (as : SvFloat64 α W) (ns : SvInt64 W) (p : SvBool W)
    (u2 : Unspecified α W2) (as2 : SvFloat64 α W2) (ns2 : SvInt64 W2) (p2 : SvBool W2)
    (i : Fin W) (j : Fin W2) (n : Int) (hn : 0 < n)
    (hp : p.get i = true) (hp2 : p2.get j = true) (hb : as.get i = as2.get j)
    (he : ns.get i = -n) (he2 : ns2.get j = n) :
    (__sv_powi_x ops u as ns p).get i
      = ops.div ops.one ((__sv_powi_x ops u2 as2 ns2 p2).get j) := by
  rw [powi_active ops u as ns p i hp, powi_active ops u2 as2 ns2 p2 j hp2, hb, he, he2]
  unfold lanePowi
  rw [if_pos (by omega), if_neg (by omega), mag64_neg]

/-- C3 at bases `[3, 3, 5, 2]`, exponents `[-2, 2, 0, 62]`: lane 0 is the
reciprocal of lane 1. -/
theorem C3_negative_exponent_reciprocal_witness :
    (__sv_powi_x (exactOps ℚ) junkA pairBases pairExponents allActive4).get 0
      = (exactOps ℚ).div (exactOps ℚ).one
          ((__sv_powi_x (exactOps ℚ) junkA pairBases pairExponents allActive4).get 1) :=
  C3_negative_exponent_reciprocal (exactOps ℚ) junkA pairBases pairExponents allActive4
    junkA pairBases pairExponents allActive4 0 1 2 (by decide) rfl rfl rfl rfl rfl

/-- C4: an active lane with exponent 0 returns exactly `1.0` for any base and any
content of the other lanes; its accumulator is never multiplied and the lane is
not selected for the reciprocal. -/
theorem C4_exponent_zero {α : Type} (ops : F64Ops α) {W : Nat} (u : Unspecified α W)
    (as : SvFloat64 α W) (ns : SvInt64 W) (p : SvBool W) (i : Fin W)
    (hp : p.get i = true) (he : ns.get i = 0) :
    (__sv_powi_x ops u as ns p).get i = ops.one ∧
    (sv_powi_run ops u as ns p).mul_rounds.get i = [] ∧
    (sv_powi_run ops u as ns p).want_recip.get i = false := by
  refine ⟨?_, ?_, ?_⟩
  · rw [powi_active ops u as ns p i hp, he]
    simp [lanePowi, mag64_zero, laneRounds_zero]
  · rw [run_mul_rounds_active ops u as ns p i hp, he, mag64_zero, laneLog_zero]
  · rw [run_want_recip_get, he]
    simp

/-- C4 at bases `[2, 3, 0, 2]`, exponents `[3, -2, 0, 62]`: lane 2 is `0 ^ 0 = 1`. -/
theorem C4_exponent_zero_witness :
    (__sv_powi_x (exactOps ℚ) junkA zeroBases scenarioExponents allActive4).get 2 = 1 ∧
    (sv_powi_run (exactOps ℚ) junkA zeroBases scenarioExponents allActive4).mul_rounds.get 2
      = [] ∧
    (sv_powi_run (exactOps ℚ) junkA zeroBases scenarioExponents allActive4).want_recip.get 2
      = false :=
  C4_exponent_zero (exactOps ℚ) junkA zeroBases scenarioExponents allActive4 2 rfl rfl

/-- C5: an active lane with exponent 1 has its accumulator multiplied exactly
once, in the first iteration, and returns `1.0 * base` (hence `base` when `1.0`
is a left identity), however many rounds the other lanes force. -/
theorem C5_exponent_one {α : Type} (ops : F64Ops α) {W : Nat} (u : Unspecified α W)
    (as : SvFloat64 α W) (ns : SvInt64 W) (p : SvBool W) (i : Fin W)
    (hp : p.get i = true) (he : ns.get i = 1) :
    (__sv_powi_x ops u as ns p).get i = ops.mul ops.one (as.get i) ∧
    (sv_powi_run ops u as ns p).mul_rounds.get i = [0] ∧
    ((∀ x, ops.mul ops.one x = x) → (__sv_powi_x ops u as ns p).get i = as.get i) := by
  have h1 : (__sv_powi_x ops u as ns p).get i = ops.mul ops.one (as.get i) := by
    rw [powi_active ops u as ns p i hp, he]
    unfold lanePowi
    rw [if_neg (by omega), mag64_one, laneRounds_congr ops 64 1 _ _ 1 (by norm_num) (by norm_num)]
    simp [laneRounds]
  refine ⟨h1, ?_, fun hid => by rw [h1, hid]⟩
  rw [run_mul_rounds_active ops u as ns p i hp, he, mag64_one,
    laneLog_congr 64 1 _ _ 1 (by norm_num) (by norm_num)]
  simp [laneLog]

/-- C5 at bases `[2, 3, 5, 2]`, exponents `[1, 2 ^ 62, 0, -3]`: lane 0 returns
`1 * 2` after a single multiply although lane 1 forces 63 iterations. -/
theorem C5_exponent_one_witness :
    (__sv_powi_x (exactOps ℚ) junkA scenarioBases dominatedExponents allActive4).get 0
      = (exactOps ℚ).mul (exactOps ℚ).one 2 ∧
    (sv_powi_run (exactOps ℚ) junkA scenarioBases dominatedExponents allActive4).mul_rounds.get 0
      = [0] ∧
    (sv_powi_run (exactOps ℚ) junkA scenarioBases dominatedExponents allActive4).iterations
      = 63 := by
  have h := C5_exponent_one (exactOps ℚ) junkA scenarioBases dominatedExponents allActive4 0
    rfl rfl
  refine ⟨h.1, h.2.1, ?_⟩
  rw [run_iterations]
  have hmax : svmaxv_u64 allActive4
      (svreinterpret_u64_s64 (svabs_s64_x junkA.abs_x allActive4 dominatedExponents))
      = 2 ^ 62 := by
    decide
  rw [hmax, Nat.size_pow]
  rfl

/-- C6: on an active lane holding any `int64_t` exponent, `INT64_MIN` included,
the unsigned magnitude `ns_abs` is the mathematical absolute value; and a lane
with exponent `INT64_MIN` returns `1 / base ^ (2 ^ 63)` in exact arithmetic. -/
theorem C6_unsigned_magnitude {K : Type} [Field K] {W : Nat} (u : Unspecified K W)
    (as : SvFloat64 K W) (ns : SvInt64 W) (p : SvBool W) (i : Fin W)
    (hp : p.get i = true) (hi : IsInt64 (ns.get i)) :
    (svreinterpret_u64_s64 (svabs_s64_x u.abs_x p ns)).get i = (ns.get i).natAbs ∧
    (ns.get i = INT64_MIN →
      (svreinterpret_u64_s64 (svabs_s64_x u.abs_x p ns)).get i = 2 ^ 63 ∧
      (__sv_powi_x (exactOps K) u as ns p).get i = 1 / as.get i ^ 2 ^ 63) := by
  have h1 := ns_abs_active u.abs_x p ns i hp
  rw [mag64_eq_natAbs _ hi] at h1
  refine ⟨h1, fun hmin => ?_⟩
  have habs : (ns.get i).natAbs = 2 ^ 63 := by
    rw [hmin]; unfold INT64_MIN; omega
  refine ⟨by rw [h1, habs], ?_⟩
  rw [powi_active (exactOps K) u as ns p i hp, lanePowi_exact _ _ hi, habs,
    if_neg (by rw [hmin]; unfold INT64_MIN; omega)]

/-- C6 at exponents `[INT64_MIN, 1, 0, -3]`: lane 0 has magnitude `2 ^ 63` and
returns `1 / 2 ^ (2 ^ 63)`. -/
theorem C6_unsigned_magnitude_witness :
    IsInt64 (minExponents.get 0) ∧
    (svreinterpret_u64_s64 (svabs_s64_x junkA.abs_x allActive4 minExponents)).get 0
      = 2 ^ 63 ∧
    (__sv_powi_x (exactOps ℚ) junkA scenarioBases minExponents allActive4).get 0
      = 1 / scenarioBases.get 0 ^ 2 ^ 63 :=
  ⟨by decide,
    (C6_unsigned_magnitude junkA scenarioBases minExponents allActive4 0 rfl (by decide)).2 rfl⟩

/-- C7: the routine is total (it is a total function of its inputs, the loop
being defined by recursion on `max_n`); on every input the loop body is entered
at least once and at most 64 times, and a vector of `W` lanes is returned. -/
theorem C7_terminates_within_64 {α : Type} (ops : F64Ops α) {W : Nat} (u : Unspecified α W)
    (as : SvFloat64 α W) (ns : SvInt64 W) (p : SvBool W) :
    1 ≤ (sv_powi_run ops u as ns p).iterations ∧
    (sv_powi_run ops u as ns p).iterations ≤ 64 ∧
    (__sv_powi_x ops u as ns p).toList.length = W := by
  rw [run_iterations]
  have h := svmaxv_lt p (svreinterpret_u64_s64 (svabs_s64_x u.abs_x p ns))
    (svreinterpret_lt _)
  have h2 := Nat.size_le.mpr h
  refine ⟨le_max_left _ _, by omega, by simp⟩

/-- C8 as stated fails: with every exponent `0` the loop body is entered once,
while the bit length of the largest active magnitude is `0`. -/
theorem C8_iterations_counterexample :
    (sv_powi_run (exactOps ℚ) junkA scenarioBases zeroExponents allActive4).iterations = 1 ∧
    bit_length (maxActiveMagnitude allActive4 zeroExponents) = 0 ∧
    (sv_powi_run (exactOps ℚ) junkA scenarioBases zeroExponents allActive4).iterations
      ≠ bit_length (maxActiveMagnitude allActive4 zeroExponents) := by
  have hmax : svmaxv_u64 allActive4
      (svreinterpret_u64_s64 (svabs_s64_x junkA.abs_x allActive4 zeroExponents)) = 0 := by
    decide
  have h1 : (sv_powi_run (exactOps ℚ) junkA scenarioBases zeroExponents allActive4).iterations
      = 1 := by
    rw [run_iterations, hmax, Nat.size_zero]; rfl
  have h2 : bit_length (maxActiveMagnitude allActive4 zeroExponents) = 0 := by
    have : maxActiveMagnitude allActive4 zeroExponents = 0 := by decide
    rw [this]; exact Nat.size_zero
  exact ⟨h1, h2, by rw [h1, h2]; decide⟩

/-- C8, amended: when the active exponents are `int64_t` values, the loop body is
entered `max 1 (bit_length m)` times, `m` being the largest active magnitude
(`0` when no lane is active). -/
theorem C8_iterations {α : Type} (ops : F64Ops α) {W : Nat} (u : Unspecified α W)
    (as : SvFloat64 α W) (ns : SvInt64 W) (p : SvBool W)
    (hns : ∀ i, p.get i = true → IsInt64 (ns.get i)) :
    (sv_powi_run ops u as ns p).iterations
      = max 1 (bit_length (maxActiveMagnitude p ns)) := by
  rw [run_iterations, svmaxv_eq_sup]
  unfold bit_length maxActiveMagnitude
  congr 2
  apply Finset.sup_congr rfl
  intro i hi
  have hp : p.get i = true := by simpa using hi
  rw [ns_abs_active u.abs_x p ns i hp, mag64_eq_natAbs _ (hns i hp)]

/-- C8, amended, on the documented scenario: the largest magnitude is 62 and the
loop body is entered 6 times. -/
theorem C8_iterations_witness :
    (∀ i, allActive4.get i = true → IsInt64 (scenarioExponents.get i)) ∧
    (sv_powi_run (exactOps ℚ) junkA scenarioBases scenarioExponents allActive4).iterations
      = max 1 (bit_length (maxActiveMagnitude allActive4 scenarioExponents)) :=
  ⟨by decide, C8_iterations (exactOps ℚ) junkA scenarioBases scenarioExponents allActive4
    (by decide)⟩

/-- C9: let `zero` and `inf` stand for `0.0` and `+∞`, with the IEEE-754 facts
`1.0 * 0.0 = 0.0`, `0.0 * 0.0 = 0.0` and `1.0 / 0.0 = +∞`.  An active lane with
base `0.0` and a negative `int64_t` exponent has accumulator exactly `0.0` at
loop exit and returns `+∞`. -/
theorem C9_zero_base_negative_exponent {α : Type} (ops : F64Ops α) (zero inf : α)
    (hmul1 : ops.mul ops.one zero = zero) (hmul0 : ops.mul zero zero = zero)
    (hdiv : ops.div ops.one zero = inf) {W : Nat} (u : Unspecified α W)
    (as : SvFloat64 α W) (ns : SvInt64 W) (p : SvBool W) (i : Fin W)
    (hp : p.get i = true) (hb : as.get i = zero) (hi : IsInt64 (ns.get i))
    (hneg : ns.get i < 0) :
    (sv_powi_run ops u as ns p).acc_loop.get i = zero ∧
    (__sv_powi_x ops u as ns p).get i = inf := by
  have hacc : (sv_powi_run ops u as ns p).acc_loop.get i = zero := by
    rw [run_acc_active ops u as ns p i hp, hb]
    apply laneRounds_zero_base ops zero hmul1 hmul0 64 _ _ _ (mag64_lt _)
    right
    refine ⟨rfl, ?_⟩
    rw [mag64_eq_natAbs _ hi]
    omega
  refine ⟨hacc, ?_⟩
  unfold __sv_powi_x
  rw [run_result_get, run_want_recip_get, hacc, hp]
  simp [hneg, hdiv]

/-- C9 in the IEEE-754 fragment, bases `[+0.0, 1.0, +0.0, 1.0]`, exponents
`[-2, 2, 0, 62]`: lane 0 is `0.0 ^ -2 = +∞`. -/
theorem C9_zero_base_negative_exponent_witness :
    (sv_powi_run ieee4Ops junkIeee ieeeBases pairExponents allActive4).acc_loop.get 0
      = Ieee4.pzero ∧
    (__sv_powi_x ieee4Ops junkIeee ieeeBases pairExponents allActive4).get 0 = Ieee4.pinf :=
  C9_zero_base_negative_exponent ieee4Ops Ieee4.pzero Ieee4.pinf rfl rfl rfl junkIeee ieeeBases
    pairExponents allActive4 0 rfl rfl (by decide) (by decide)

/-- C10: the horizontal reductions are pure optimisations.  On every input and
every active lane the routine returns the value returned by the variant that
ignores `max_n`, always runs 64 rounds and always applies the reciprocal merge,
for arbitrary multiply and divide and whatever the inactive lanes hold in either
computation. -/
theorem C10_reductions_are_optimisations {α : Type} (ops : F64Ops α) {W : Nat}
    (u u2 : Unspecified α W) (as : SvFloat64 α W) (ns : SvInt64 W) (p : SvBool W)
    (i : Fin W) (hp : p.get i = true) :
    (__sv_powi_x ops u as ns p).get i = (sv_powi_full64 ops u2 as ns p).get i := by
  rw [powi_active ops u as ns p i hp, full64_active ops u2 as ns p i hp]

/-- C10 on the documented scenario under the mask `[true, true, false, true]`:
lanes 0, 1 and 3 of the routine and of the variant agree. -/
theorem C10_reductions_are_optimisations_witness :
    (__sv_powi_x (exactOps ℚ) junkA scenarioBases scenarioExponents maskTTFT).get 0
      = (sv_powi_full64 (exactOps ℚ) junkB scenarioBases scenarioExponents maskTTFT).get 0 ∧
    (__sv_powi_x (exactOps ℚ) junkA scenarioBases scenarioExponents maskTTFT).get 1
      = (sv_powi_full64 (exactOps ℚ) junkB scenarioBases scenarioExponents maskTTFT).get 1 ∧
    (__sv_powi_x (exactOps ℚ) junkA scenarioBases scenarioExponents maskTTFT).get 3
      = (sv_powi_full64 (exactOps ℚ) junkB scenarioBases scenarioExponents maskTTFT).get 3 :=
  ⟨C10_reductions_are_optimisations (exactOps ℚ) junkA junkB scenarioBases scenarioExponents
      maskTTFT 0 rfl,
    C10_reductions_are_optimisations (exactOps ℚ) junkA junkB scenarioBases scenarioExponents
      maskTTFT 1 rfl,
    C10_reductions_are_optimisations (exactOps ℚ) junkA junkB scenarioBases scenarioExponents
      maskTTFT 3 rfl⟩

/-- C11: loop invariant, in exact arithmetic, for an active lane with base `b`
and exponent `e` (the active exponents being `int64_t` values).  Every iteration
`k` that takes place is entered in the state `iterationState k`, in which
`ns_abs = |e| >>> k`, `c = b ^ (2 ^ k)`, `max_n = max_mag >>> k` and
`acc * c ^ ns_abs = b ^ |e|`.  At loop exit `ns_abs ≤ 1` and `acc = b ^ |e|`. -/
theorem C11_loop_invariant {K : Type} [Field K] {W : Nat} (u : Unspecified K W)
    (as : SvFloat64 K W) (ns : SvInt64 W) (p : SvBool W) (i : Fin W)
    (hp : p.get i = true) (hns : ∀ j, p.get j = true → IsInt64 (ns.get j)) :
    (∀ k, k < (sv_powi_run (exactOps K) u as ns p).iterations →
      whileLoop (exactOps K) u p 0 (loopEntry (exactOps K) u as ns p)
        = whileLoop (exactOps K) u p k (iterationState (exactOps K) u as ns p k) ∧
      (iterationState (exactOps K) u as ns p k).ns_abs.get i = (ns.get i).natAbs >>> k ∧
      (iterationState (exactOps K) u as ns p k).c.get i = as.get i ^ 2 ^ k ∧
      (iterationState (exactOps K) u as ns p k).max_n = maxActiveMagnitude p ns >>> k ∧
      (iterationState (exactOps K) u as ns p k).acc.get i
          * (iterationState (exactOps K) u as ns p k).c.get i
            ^ (iterationState (exactOps K) u as ns p k).ns_abs.get i
        = as.get i ^ (ns.get i).natAbs) ∧
    (whileLoop (exactOps K) u p 0 (loopEntry (exactOps K) u as ns p)).1.ns_abs.get i ≤ 1 ∧
    (sv_powi_run (exactOps K) u as ns p).acc_loop.get i = as.get i ^ (ns.get i).natAbs := by
  have hmag := mag64_eq_natAbs _ (hns i hp)
  refine ⟨fun k hk => ⟨?_, ?_, ?_, ?_, ?_⟩, ?_, ?_⟩
  · rw [run_iterations] at hk
    exact whileLoop_iterationState (exactOps K) u as ns p k hk
  · rw [iterationState_ns_abs _ u as ns p i hp, hmag]
  · exact iterationState_c_exact u as ns p i hp k
  · rw [iterationState_max_n, svmaxv_eq_maxActiveMagnitude u.abs_x p ns hns]
  · rw [iterationState_invariant u as ns p i hp, hmag]
  · exact exit_ns_abs_le_one (exactOps K) u as ns p i hp
  · rw [run_acc_active (exactOps K) u as ns p i hp, laneRounds_exact 64 _ _ _ (mag64_lt _), hmag]
    simp [exactOps]

/-- C11 on the documented scenario, lane 3 (`2 ^ 62`), at the start of the last
iteration `k = 5`: `ns_abs = 1`, `c = 2 ^ 32`, `max_n = 1`,
`acc * c ^ ns_abs = 2 ^ 62`; at loop exit `acc = 2 ^ 62`. -/
theorem C11_loop_invariant_witness :
    (iterationState (exactOps ℚ) junkA scenarioBases scenarioExponents allActive4 5).ns_abs.get 3
      = 1 ∧
    (iterationState (exactOps ℚ) junkA scenarioBases scenarioExponents allActive4 5).c.get 3
      = 2 ^ 32 ∧
    (iterationState (exactOps ℚ) junkA scenarioBases scenarioExponents allActive4 5).max_n
      = 1 ∧
    (iterationState (exactOps ℚ) junkA scenarioBases scenarioExponents allActive4 5).acc.get 3
        * (iterationState (exactOps ℚ) junkA scenarioBases scenarioExponents allActive4 5).c.get 3
          ^ (iterationState (exactOps ℚ) junkA scenarioBases scenarioExponents allActive4
              5).ns_abs.get 3
      = 2 ^ 62 ∧
    (sv_powi_run (exactOps ℚ) junkA scenarioBases scenarioExponents allActive4).acc_loop.get 3
      = 2 ^ 62 := by
  have h := C11_loop_invariant junkA scenarioBases scenarioExponents allActive4 3 rfl
    (by decide)
  have hk : 5 < (sv_powi_run (exactOps ℚ) junkA scenarioBases scenarioExponents
      allActive4).iterations := by
    rw [run_iterations]
    have hmax : svmaxv_u64 allActive4
        (svreinterpret_u64_s64 (svabs_s64_x junkA.abs_x allActive4 scenarioExponents))
        = 62 := by
      decide
    rw [hmax]
    exact lt_max_of_lt_right (Nat.lt_size.mpr (by norm_num))
  obtain ⟨_, h2, h3, h4, h5⟩ := h.1 5 hk
  have hb : scenarioBases.get 3 = 2 := rfl
  have he : (scenarioExponents.get 3).natAbs = 62 := rfl
  have hm : maxActiveMagnitude allActive4 scenarioExponents = 62 := by decide
  refine ⟨?_, ?_, ?_, ?_, ?_⟩
  · rw [h2, he]; rfl
  · rw [h3, hb]; norm_num
  · rw [h4, hm]; rfl
  · rw [h5, hb, he]
  · rw [h.2.2, hb, he]

/-- C12: the reciprocal step writes exactly the active lanes with a negative
exponent.  Every such lane returns `1.0` divided by its accumulator at loop
exit; every other lane (active with exponent `≥ 0`, whatever the other lanes
hold, or inactive) returns its accumulator at loop exit untouched. -/
theorem C12_reciprocal_frame {α : Type} (ops : F64Ops α) {W : Nat} (u : Unspecified α W)
    (as : SvFloat64 α W) (ns : SvInt64 W) (p : SvBool W) (i : Fin W) :
    (p.get i = true → ns.get i < 0 →
      (__sv_powi_x ops u as ns p).get i
        = ops.div ops.one ((sv_powi_run ops u as ns p).acc_loop.get i)) ∧
    (p.get i = true → 0 ≤ ns.get i →
      (__sv_powi_x ops u as ns p).get i = (sv_powi_run ops u as ns p).acc_loop.get i) ∧
    (p.get i = false →
      (__sv_powi_x ops u as ns p).get i = (sv_powi_run ops u as ns p).acc_loop.get i) := by
  unfold __sv_powi_x
  rw [run_result_get, run_want_recip_get]
  refine ⟨fun hp hneg => ?_, fun hp hpos => ?_, fun hp => ?_⟩
  · simp [hp, hneg]
  · simp [hp, not_lt.mpr hpos]
  · simp [hp]

/-- C12 on the documented scenario, all lanes active: lane 1 (exponent `-2`) is
`1 / acc`, lane 0 (exponent `3`) is `acc` although lane 1 is reciprocated. -/
theorem C12_reciprocal_frame_witness :
    (__sv_powi_x (exactOps ℚ) junkA scenarioBases scenarioExponents allActive4).get 1
      = (exactOps ℚ).div (exactOps ℚ).one
        ((sv_powi_run (exactOps ℚ) junkA scenarioBases scenarioExponents allActive4).acc_loop.get
          1) ∧
    (__sv_powi_x (exactOps ℚ) junkA scenarioBases scenarioExponents allActive4).get 0
      = (sv_powi_run (exactOps ℚ) junkA scenarioBases scenarioExponents allActive4).acc_loop.get
          0 :=
  ⟨(C12_reciprocal_frame (exactOps ℚ) junkA scenarioBases scenarioExponents allActive4 1).1 rfl
      (by decide),
    (C12_reciprocal_frame (exactOps ℚ) junkA scenarioBases scenarioExponents allActive4 0).2.1 rfl
      (by decide)⟩

/-- C13: every inactive lane is returned as exactly `1.0`: its accumulator is
never multiplied and the lane is not selected for the reciprocal.  With no
active lane at all the loop body is entered once and the whole result is
`1.0`. -/
theorem C13_inactive_lanes_are_one {α : Type} (ops : F64Ops α) {W : Nat}
    (u : Unspecified α W) (as : SvFloat64 α W) (ns : SvInt64 W) (p : SvBool W) (i : Fin W)
    (hp : p.get i = false) :
    (__sv_powi_x ops u as ns p).get i = ops.one ∧
    (sv_powi_run ops u as ns p).mul_rounds.get i = [] ∧
    (sv_powi_run ops u as ns p).want_recip.get i = false ∧
    ((∀ j, p.get j = false) →
      (sv_powi_run ops u as ns p).iterations = 1 ∧
      __sv_powi_x ops u as ns p = svdup_n_f64 ops.one) := by
  have hres : ∀ j, p.get j = false → (__sv_powi_x ops u as ns p).get j = ops.one := by
    intro j hj
    unfold __sv_powi_x
    rw [run_result_get, run_want_recip_get, run_acc_inactive ops u as ns p j hj, hj]
    simp
  refine ⟨hres i hp, ?_, ?_, fun hall => ⟨?_, ?_⟩⟩
  · simp only [sv_powi_run]
    rw [(whileLoop_inactive ops u p i hp _ 0 _ rfl).2]
    simp
  · rw [run_want_recip_get, hp]
    simp
  · rw [run_iterations, svmaxv_eq_sup]
    have hempty : Finset.univ.filter (fun j => p.get j = true) = ∅ := by
      apply Finset.filter_eq_empty_iff.mpr
      intro j _
      simp [hall j]
    rw [hempty, Finset.sup_empty]
    simp
  · apply Mathlib.Vector.ext
    intro j
    rw [hres j (hall j)]
    simp [svdup_n_f64]

/-- C13 on the documented scenario: under the mask `[true, true, false, true]`
lane 2 is `1`; with the all-false mask the loop body is entered once and the
result is `[1, 1, 1, 1]`. -/
theorem C13_inactive_lanes_are_one_witness :
    (__sv_powi_x (exactOps ℚ) junkA scenarioBases scenarioExponents maskTTFT).get 2 = 1 ∧
    (sv_powi_run (exactOps ℚ) junkA scenarioBases scenarioExponents noneActive4).iterations
      = 1 ∧
    __sv_powi_x (exactOps ℚ) junkA scenarioBases scenarioExponents noneActive4
      = ⟨[1, 1, 1, 1], rfl⟩ := by
  have h := C13_inactive_lanes_are_one (exactOps ℚ) junkA scenarioBases scenarioExponents
    noneActive4 2 rfl
  exact ⟨(C13_inactive_lanes_are_one (exactOps ℚ) junkA scenarioBases scenarioExponents
      maskTTFT 2 rfl).1, (h.2.2.2 (by decide)).1, (h.2.2.2 (by decide)).2⟩

/-- C14: on an active lane with an `int64_t` exponent `e`, the accumulator is
multiplied once per 1 bit of `|e|`, popcount of `|e|` times in all, whatever the
other lanes hold and however many iterations they force.  The multiplies occur
in increasing bit order (the ghost log, read oldest first, lists the set-bit
positions), and the multiply for the bit at position `k` is by the base squared
`k` times. -/
theorem C14_multiplies_per_lane {α : Type} (ops : F64Ops α) {W : Nat} (u : Unspecified α W)
    (as : SvFloat64 α W) (ns : SvInt64 W) (p : SvBool W) (i : Fin W)
    (hp : p.get i = true) (hi : IsInt64 (ns.get i)) :
    ((sv_powi_run ops u as ns p).mul_rounds.get i).length = popcount (ns.get i).natAbs ∧
    ((sv_powi_run ops u as ns p).mul_rounds.get i).reverse = setBits (ns.get i).natAbs ∧
    (setBits (ns.get i).natAbs).Pairwise (fun a b => a < b) ∧
    (sv_powi_run ops u as ns p).acc_loop.get i
      = (setBits (ns.get i).natAbs).foldl
          (fun a k => ops.mul a (squared ops k (as.get i))) ops.one := by
  have hlog : ((sv_powi_run ops u as ns p).mul_rounds.get i).reverse
      = setBits (ns.get i).natAbs := by
    rw [run_mul_rounds_active ops u as ns p i hp, mag64_eq_natAbs _ hi, laneLog_eq]
    simp [setBits]
  refine ⟨?_, hlog, setBits_pairwise _, ?_⟩
  · rw [popcount, ← hlog, List.length_reverse]
  · rw [run_acc_active ops u as ns p i hp, mag64_eq_natAbs _ hi, laneRounds_eq_foldl]
    rfl

/-- C14 on the documented scenario: lane 3 (exponent `62 = 0b111110`) is
multiplied 5 times, in iterations 1 to 5, and lane 1 (exponent `-2`) once, in
iteration 1, although the loop runs 6 iterations. -/
theorem C14_multiplies_per_lane_witness :
    ((sv_powi_run (exactOps ℚ) junkA scenarioBases scenarioExponents allActive4).mul_rounds.get
      3).length = 5 ∧
    ((sv_powi_run (exactOps ℚ) junkA scenarioBases scenarioExponents allActive4).mul_rounds.get
      3).reverse = [1, 2, 3, 4, 5] ∧
    ((sv_powi_run (exactOps ℚ) junkA scenarioBases scenarioExponents allActive4).mul_rounds.get
      1).reverse = [1] := by
  have h3 := C14_multiplies_per_lane (exactOps ℚ) junkA scenarioBases scenarioExponents
    allActive4 3 rfl (by decide)
  have h1 := C14_multiplies_per_lane (exactOps ℚ) junkA scenarioBases scenarioExponents
    allActive4 1 rfl (by decide)
  have e3 : setBits (scenarioExponents.get 3).natAbs = [1, 2, 3, 4, 5] := by decide
  have e1 : setBits (scenarioExponents.get 1).natAbs = [1] := by decide
  refine ⟨?_, ?_, ?_⟩
  · rw [h3.1, popcount, e3]; rfl
  · rw [h3.2.1, e3]
  · rw [h1.2.1, e1]

end SvPowi
